import Mathlib

/-!
Verification of `async-service` (`src/async_service/trio.py`) against its
natural-language specification.

The development is a shallow embedding of the trio backend of the service
manager.  Python objects become Lean structures; the mutable manager state
(`TrioManager`) is passed explicitly; async functions whose await points
interleave with other tasks take the interleaved effects as explicit
parameters; fallible code returns an `Option`/`Except`-style result.

Parts of the repository that `trio.py` imports but that are not shipped with
the source under scrutiny (`_utils.iter_dag`, `BaseManager.is_running`,
`BaseManager.did_error`, the `Stats` record shapes) are modelled from the
specification text; each such definition carries a doc comment saying so.
-/

namespace AsyncService

/-- A captured task failure, as stored in the manager's error buffer
(`self._errors.append(cast(EXC_INFO, sys.exc_info()))` in
`src/async_service/trio.py`).  `userError` stands for an arbitrary exception
raised by user code; `daemonTaskExit` for the `DaemonTaskExit` raised when a
daemon task returns cleanly; `lifecycle` for a `LifecycleError`. -/
inductive Err where
  | userError (msg : String)
  | daemonTaskExit (taskName : String)
  | lifecycle (msg : String)
  deriving Repr, DecidableEq, Inhabited

/-- An exception propagating out of one of the embedded operations.
`fromTask` wraps an `Err` raised into a scope; `multiError` is
`trio.MultiError` carrying the drained error buffer; `trioCancelled` is
`trio.Cancelled` (which is *not* an `Exception` in Python, so `except
Exception` clauses do not catch it). -/
inductive Exc where
  | lifecycleError (msg : String)
  | serviceCancelled (msg : String)
  | fromTask (e : Err)
  | multiError (errs : List Err)
  | trioCancelled
  deriving Repr, DecidableEq, Inhabited

/-- Embedding of `_Task` (`src/async_service/trio.py:31`).  The `uuid` identity
becomes a `Nat` id; the `trio.Event` `done` becomes a `Bool` flag (set once);
`_trio_task : Optional[trio.hazmat.Task]` becomes `trioTask : Option Nat`
(runtime task handles are opaque, so a `Nat` identity suffices); the
`cancel_scope` capability needs no state of its own in the model, since the
only operation performed on it is `cancel()`.  `parent` stores the id of the
parent `_Task`, mirroring the object reference in the source. -/
structure TaskNode where
  id : Nat
  name : String
  daemon : Bool
  parent : Option Nat
  done : Bool
  trioTask : Option Nat
  deriving Repr, DecidableEq, Inhabited

/-- One binding of the dict `_service_task_dag : Dict[_Task, List[_Task]]`:
the key task together with its ordered list of direct children (child ids).
The whole dict is a `List DagEntry` in insertion order, which is exactly the
iteration order of a Python dict. -/
structure DagEntry where
  task : TaskNode
  children : List Nat
  deriving Repr, DecidableEq, Inhabited

abbrev Dag := List DagEntry

/-- The ids of the dict keys, in insertion order. -/
def keyIds (dag : Dag) : List Nat :=
  dag.map (fun e => e.task.id)

/-- Dict lookup `self._service_task_dag[task]`, keyed by task id (task
equality in the source is by `uuid`). -/
def findEntry (dag : Dag) (tid : Nat) : Option DagEntry :=
  dag.find? (fun e => e.task.id = tid)

/-- The children list of a key, `[]` when the key is absent. -/
def childrenOf (dag : Dag) (tid : Nat) : List Nat :=
  ((findEntry dag tid).map (fun e => e.children)).getD []

/-- Mutation `task.done.set()` on the task stored in the dag. -/
def setDone (dag : Dag) (tid : Nat) : Dag :=
  dag.map (fun e =>
    if e.task.id = tid then { e with task := { e.task with done := true } } else e)

/-- Mutation `task.trio_task = value` on the task stored in the dag. -/
def setTrioTask (dag : Dag) (tid trioT : Nat) : Dag :=
  dag.map (fun e =>
    if e.task.id = tid then { e with task := { e.task with trioTask := some trioT } } else e)

/-- Mutation `self._service_task_dag[pid].append(cid)`. -/
def appendChild (dag : Dag) (pid cid : Nat) : Dag :=
  dag.map (fun e =>
    if e.task.id = pid then { e with children := e.children ++ [cid] } else e)

/-- The mutable state of one `TrioManager` (`src/async_service/trio.py:80`):
the four one-shot `trio.Event`s, the `trio.Lock` run guard, the error buffer
from `BaseManager`, and the task DAG. -/
structure ManagerState where
  started : Bool
  cancelled : Bool
  stoppingEv : Bool
  finishedEv : Bool
  runLockLocked : Bool
  errors : List Err
  dag : Dag
  deriving Repr, DecidableEq, Inhabited

/-- `TrioManager.__init__`: all events unset, lock free, empty error buffer,
empty DAG. -/
def initialState : ManagerState :=
  { started := false
    cancelled := false
    stoppingEv := false
    finishedEv := false
    runLockLocked := false
    errors := []
    dag := [] }

/-- `is_started` property (`trio.py:220`). -/
def ManagerState.is_started (s : ManagerState) : Bool := s.started

/-- `is_cancelled` property (`trio.py:224`). -/
def ManagerState.is_cancelled (s : ManagerState) : Bool := s.cancelled

/-- `is_finished` property (`trio.py:232`). -/
def ManagerState.is_finished (s : ManagerState) : Bool := s.finishedEv

/-- `is_stopping` property (`trio.py:228`):
`self._stopping.is_set() and not self.is_finished`. -/
def ManagerState.is_stopping (s : ManagerState) : Bool :=
  s.stoppingEv && !s.is_finished

/-- Modelled from the spec: `is_running` lives on `BaseManager`
(`async_service/base.py`), which is not part of the source under scrutiny.
Spec §3: `running := started ∧ ¬stopping ∧ ¬finished`. -/
def ManagerState.is_running (s : ManagerState) : Bool :=
  s.is_started && !s.is_stopping && !s.is_finished

/-- Modelled from the spec: `did_error` lives on `BaseManager`.  Spec §4.1:
"if the error buffer is non-empty, fails with an aggregate error". -/
def ManagerState.did_error (s : ManagerState) : Bool :=
  !s.errors.isEmpty

/-- `TrioManager.cancel` (`trio.py:238`): `LifecycleError` when never started,
no-op when started but not running, otherwise sets the `cancelled` event. -/
def cancel (s : ManagerState) : Except Exc ManagerState :=
  if !s.is_started then
    .error (.lifecycleError "Cannot cancel as service which was never started.")
  else if !s.is_running then
    .ok s
  else
    .ok { s with cancelled := true }

/-- The outcome of awaiting a user-supplied async body: clean return, an
`Exception`, or `trio.Cancelled` (which is not an `Exception` and therefore
passes every `except Exception` clause). -/
inductive BodyResult where
  | ok
  | exc (e : Err)
  | cancelled
  deriving Repr, DecidableEq, Inhabited

/-- The effect of awaiting a user-supplied async function: while it runs it
may call back into the manager (`run_task`, `cancel`, ...), so it transforms
the manager state, and it ends in a `BodyResult`. -/
abbrev Body := ManagerState → ManagerState × BodyResult

/-- `TrioManager._get_parent_task` (`trio.py:297`): scan the dict keys in
insertion order, skip every task whose `trio_task` is not yet set, return the
first task whose `trio_task` is the given runtime task, and `none` when no
key matches. -/
def _get_parent_task (dag : Dag) (trioTask : Nat) : Option TaskNode :=
  match dag with
  | [] => none
  | e :: rest =>
    if !e.task.trioTask.isSome then _get_parent_task rest trioTask
    else if e.task.trioTask = some trioTask then some e.task
    else _get_parent_task rest trioTask

/-- `TrioManager.run_task` (`trio.py:316`).  Inputs: the manager state, the
identity of the trio task making the call (`trio.hazmat.current_task()`), the
`daemon` flag, the resolved task name (`get_task_name` lives in
`_utils.py`, outside the source under scrutiny, so the resolved name is taken
as an input), and a fresh uuid for the new `_Task`.  Output: `LifecycleError`
when the manager is not running; otherwise the updated state together with
the id of the task handed to `task_nursery.start_soon` — `none` when the
call was the post-cancellation no-op that schedules nothing. -/
def run_task (s : ManagerState) (currentTrio : Nat) (daemon : Bool)
    (taskName : String) (freshId : Nat) :
    Except Exc (ManagerState × Option Nat) :=
  if !s.is_running then
    .error (.lifecycleError "Tasks may not be scheduled if the service is not running")
  else if s.is_running && s.is_cancelled then
    .ok (s, none)
  else
    let parent := _get_parent_task s.dag currentTrio
    let task : TaskNode :=
      { id := freshId
        name := taskName
        daemon := daemon
        parent := parent.map (fun p => p.id)
        done := false
        trioTask := none }
    let dag1 :=
      match parent with
      | none => s.dag
      | some p => appendChild s.dag p.id freshId
    .ok ({ s with dag := dag1 ++ [{ task := task, children := [] }] }, some freshId)

/-- `TrioManager.run_child_service` (`trio.py:361`): construct a fresh manager
of the same class over the child service, schedule its `run` via `run_task`,
and return the child manager immediately.  The freshly constructed child
manager state is returned alongside the `run_task` result. -/
def run_child_service (s : ManagerState) (currentTrio : Nat) (daemon : Bool)
    (taskName : String) (freshId : Nat) :
    Except Exc (ManagerState × Option Nat × ManagerState) :=
  (run_task s currentTrio daemon taskName freshId).map
    (fun r => (r.1, r.2, initialState))

/-- `TrioManager._run_and_manage_task` (`trio.py:258`).  The wrapper records
the runtime task into `task.trio_task` (the setter raises `LifecycleError`
when already set, before the `try`/`finally` is entered), opens the task's
cancel scope and awaits `async_fn`.  On an `Exception` it appends the
captured error to the buffer and calls `self.cancel()`; on a clean return of
a daemon task it calls `self.cancel()` and raises `DaemonTaskExit` into the
scope; `trio.Cancelled` passes the `except Exception` clause.  The `finally`
sets the task's `done` event on every one of those paths.  Returns the
resulting manager state and the exception (if any) propagating into the task
nursery. -/
def _run_and_manage_task (s : ManagerState) (taskId currentTrio : Nat)
    (daemon : Bool) (taskName : String) (body : Body) :
    ManagerState × Option Exc :=
  if (((findEntry s.dag taskId).map (fun e => e.task.trioTask)).getD none).isSome then
    (s, some (.lifecycleError "Task already set"))
  else
    match body { s with dag := setTrioTask s.dag taskId currentTrio } with
    | (s1, .ok) =>
      if daemon then
        match cancel s1 with
        | .ok s2 =>
          ({ s2 with dag := setDone s2.dag taskId },
           some (.fromTask (.daemonTaskExit taskName)))
        | .error e => ({ s1 with dag := setDone s1.dag taskId }, some e)
      else
        ({ s1 with dag := setDone s1.dag taskId }, none)
    | (s1, .exc err) =>
      match cancel { s1 with errors := s1.errors ++ [err] } with
      | .ok s2 => ({ s2 with dag := setDone s2.dag taskId }, none)
      | .error e =>
        ({ s1 with errors := s1.errors ++ [err], dag := setDone s1.dag taskId }, some e)
    | (s1, .cancelled) =>
      ({ s1 with dag := setDone s1.dag taskId }, some .trioCancelled)

/-- The `_Task` literal built at the top of `TrioManager._handle_run`
(`trio.py:133`): `_Task(name="run", daemon=False, parent=None,
trio_task=trio.hazmat.current_task())`. -/
def runRootTask (currentTrio freshId : Nat) : TaskNode :=
  { id := freshId
    name := "run"
    daemon := false
    parent := none
    done := false
    trioTask := some currentTrio }

/-- `TrioManager._handle_run` (`trio.py:127`): register the root `_Task` for
`Service.run` in the DAG, await the service body inside the task's cancel
scope, on an `Exception` append the captured error and call `self.cancel()`,
and set the task's `done` event in the `finally` on every path.  Returns the
resulting state and the exception (if any) propagating into the nursery. -/
def _handle_run (s : ManagerState) (currentTrio freshId : Nat) (body : Body) :
    ManagerState × Option Exc :=
  match body { s with
      dag := s.dag ++ [{ task := runRootTask currentTrio freshId, children := [] }] } with
  | (s1, .exc err) =>
    match cancel { s1 with errors := s1.errors ++ [err] } with
    | .ok s2 => ({ s2 with dag := setDone s2.dag freshId }, none)
    | .error e =>
      ({ s1 with errors := s1.errors ++ [err], dag := setDone s1.dag freshId }, some e)
  | (s1, .ok) => ({ s1 with dag := setDone s1.dag freshId }, none)
  | (s1, .cancelled) => ({ s1 with dag := setDone s1.dag freshId }, some .trioCancelled)

/-- `TrioManager.run` (`trio.py:166`).  The guard raises `LifecycleError`
when the run lock is already engaged or the manager was already started.
Otherwise the lock is taken, the system and task nurseries are opened,
`_handle_cancelled` and `_handle_run` are spawned, and `started` is set; the
call then blocks until the nurseries drain.  Everything that happens between
`self._started.set()` and the nurseries closing is interleaved execution of
the managed tasks; its possible effects on the manager state are captured by
three parameters: the errors appended to the buffer (by failing tasks, by
daemon exits collected through the task nursery into `run`'s own
`except Exception` clause, in append order), the final contents of the task
DAG, and whether some task or caller set the `cancelled` event.  The
`finally` then sets `stopping` and `finished`, and after both nurseries are
closed `run` raises `trio.MultiError` over the buffer exactly when
`did_error`.  (External injection of `trio.Cancelled` into the `run` frame
itself is outside this model.) -/
def run (s : ManagerState) (bodyErrors : List Err) (bodyDag : Dag)
    (bodyCancelled : Bool) : ManagerState × Option Exc :=
  if s.runLockLocked then
    (s, some (.lifecycleError
      "Cannot run a service with the run lock already engaged.  Already started?"))
  else if s.is_started then
    (s, some (.lifecycleError "Cannot run a service which is already started."))
  else
    let s1 : ManagerState :=
      { s with
        runLockLocked := true
        started := true
        cancelled := s.cancelled || bodyCancelled
        errors := s.errors ++ bodyErrors
        dag := bodyDag }
    let s2 : ManagerState :=
      { s1 with stoppingEv := true, finishedEv := true, runLockLocked := false }
    if s2.did_error then (s2, some (.multiError s2.errors)) else (s2, none)

/-- `TaskStats` (`async_service/stats.py`, record shape as described by the
spec: `{ total_count, finished_count }`). -/
structure TaskStats where
  total_count : Nat
  finished_count : Nat
  deriving Repr, DecidableEq, Inhabited

/-- `Stats` (`async_service/stats.py`): the observability snapshot carrying
the task counters. -/
structure Stats where
  tasks : TaskStats
  deriving Repr, DecidableEq, Inhabited

/-- `TrioManager.stats` (`trio.py:369`): `total_count = max(0, len(dag) - 1)`
(the `Service.run` task is excluded) and `finished_count = min(total_count,
number of dag keys whose done event is set)`. -/
def stats (s : ManagerState) : Stats :=
  let total_count := max 0 (s.dag.length - 1)
  let finished_count :=
    min total_count (s.dag.filter (fun e => e.task.done)).length
  { tasks := { total_count := total_count, finished_count := finished_count } }

/-- Depth-first emission of the subtree rooted at a key: the subtrees of the
children in reverse insertion order, each finished before the next, followed
by the node itself (so leaves come first).  The recursion is fuelled; in a
well-formed DAG every child entry sits strictly later in the entry list than
its parent, so `dag.length` fuel always suffices. -/
def subtreeSeq (dag : Dag) : Nat → Nat → List Nat
  | 0, _ => []
  | fuel + 1, tid =>
    ((childrenOf dag tid).reverse.flatMap (subtreeSeq dag fuel)) ++ [tid]

/-- Modelled from the spec: `iter_dag` lives in `async_service/_utils.py`,
which is not part of the source under scrutiny.  Spec §4.2: the cancellation
handler "iterates nodes in reverse topological order (leaves first)"; the
tie-break is "among siblings, cancel in reverse insertion order; between
subtrees, finish one subtree before advancing to the next".  The roots are
the keys whose task has no parent. -/
def iter_dag (dag : Dag) : List Nat :=
  ((dag.filter (fun e => e.task.parent = none)).map (fun e => e.task.id)).reverse.flatMap
    (subtreeSeq dag dag.length)

/-- `TrioManager._handle_cancelled` (`trio.py:105`): once `cancelled` is set,
iterate `iter_dag` over a copy of the DAG and, for each task in that order,
cancel the task's cancel scope and then await the task's `done` event before
moving to the next task; finally cancel the task nursery's cancel scope.
Returns the visit order together with the state in which every visited
task's `done` event has been awaited (hence set). -/
def _handle_cancelled (s : ManagerState) : List Nat × ManagerState :=
  (iter_dag s.dag, { s with dag := (iter_dag s.dag).foldl setDone s.dag })

/-- Whether a task's `done` event is already set in the DAG snapshot the
cancellation handler iterates over. -/
def preDone (dag : Dag) (tid : Nat) : Bool :=
  ((findEntry dag tid).map (fun e => e.task.done)).getD false

/-- Index of the first occurrence of a value in a list (the list's length
when absent). -/
def firstIdx (a : Nat) : List Nat → Nat
  | [] => 0
  | b :: l => if b = a then 0 else firstIdx a l + 1

/-- The step of `_handle_cancelled` at which a task's `done` event is set, on
a discrete clock where the handler starts iterating at time `0` and its
`i`-th `await task.done.wait()` completes at time `i + 1`: a task whose
`done` was already set keeps time `0`; every other task is done by the time
the handler has awaited it. -/
def doneTime (dag : Dag) (tid : Nat) : Nat :=
  if preDone dag tid then 0 else firstIdx tid (iter_dag dag) + 1

/-- A parent → child edge recorded in the DAG: the parent's entry lists the
child in its children list. -/
def hasEdge (dag : Dag) (p c : Nat) : Prop :=
  ∃ e ∈ dag, e.task.id = p ∧ c ∈ e.children

instance (dag : Dag) (p c : Nat) : Decidable (hasEdge dag p c) := by
  unfold hasEdge; infer_instance

/-- One payload of the unbuffered memory channel used by `external_api`
(`_ChannelPayload`, `trio.py:394`): an optional result and an optional
exception. -/
abbrev Payload (α : Type) := Option α × Option Exc

/-- `_wait_api_fn` (`trio.py:430`): await the wrapped method and send
`(result, None)` on success or `(None, error)` on failure. -/
def _wait_api_fn {α : Type} (fnResult : Except Err (Option α)) : Payload α :=
  match fnResult with
  | .ok v => (v, none)
  | .error e => (none, some (.fromTask e))

/-- The `ServiceCancelled` message built with the manager's status dump
(used both by the `external_api` guard and by `_wait_stopping_or_finished`). -/
def cannotAccessMsg (fnName : String) (m : ManagerState) : String :=
  "Cannot access external API " ++ fnName ++ ".  Service is not running: " ++
    "started=" ++ toString m.is_started ++ "  running=" ++ toString m.is_running ++
    " stopping=" ++ toString m.is_stopping ++ "  finished=" ++ toString m.is_finished

/-- `_wait_stopping_or_finished` (`trio.py:397`): send a `ServiceCancelled`
payload — immediately when the manager is already stopping or finished, and
otherwise after `wait_stopping` unblocks.  `mAtSend` is the manager state at
the moment the payload is built. -/
def _wait_stopping_or_finished {α : Type} (fnName : String)
    (mAtSend : ManagerState) : Payload α :=
  (none, some (.serviceCancelled (cannotAccessMsg fnName mAtSend)))

/-- The outcome of one call to an `external_api`-wrapped method. -/
inductive ApiOutcome (α : Type) where
  | raised (e : Exc)
  | value (v : Option α)
  | blocked
  deriving Repr, DecidableEq

/-- A call outcome together with whether the wrapped method was ever
invoked (worker A started). -/
structure ApiCall (α : Type) where
  result : ApiOutcome α
  invokedFn : Bool
  deriving Repr, DecidableEq

/-- The `external_api` decorator's `inner` (`trio.py:450`).  `manager` is
`none` when the service instance has no `manager` attribute.  When the guard
passes, the two producers race on the unbuffered channel; `payloads` is the
sequence of payloads that arrive on the channel in delivery order.  The
caller performs exactly one `receive`, cancels the nursery scope
(terminating the losing producer), and then returns the result when the
delivered error is `None` and raises the delivered error otherwise. -/
def external_api {α : Type} (fnName : String) (manager : Option ManagerState)
    (payloads : List (Payload α)) : ApiCall α :=
  match manager with
  | none =>
    { result := .raised (.serviceCancelled
        ("Cannot access external API " ++ fnName ++ ".  Service has not been run."))
      invokedFn := false }
  | some m =>
    if !m.is_running then
      { result := .raised (.serviceCancelled (cannotAccessMsg fnName m))
        invokedFn := false }
    else
      match payloads with
      | [] => { result := .blocked, invokedFn := true }
      | (v, e) :: _ =>
        match e with
        | none => { result := .value v, invokedFn := true }
        | some err => { result := .raised err, invokedFn := true }

/-- `BaseManager.stop` / the `cancel();` + `wait_finished()` sequence is not
needed by any claim; `cancelN` iterates `cancel` to state idempotence:
`cancelN n` performs `n` successive `cancel()` calls, stopping at the first
raised `LifecycleError`. -/
def cancelN : Nat → ManagerState → Except Exc ManagerState
  | 0, s => .ok s
  | n + 1, s => (cancel s).bind (cancelN n)

/-! ### Helper lemmas -/

theorem cancel_preserves (s s' : ManagerState) (h : cancel s = .ok s') :
    s'.started = s.started ∧ s'.stoppingEv = s.stoppingEv ∧
    s'.finishedEv = s.finishedEv ∧ s'.errors = s.errors ∧ s'.dag = s.dag := by
  unfold cancel at h
  split at h
  · cases h
  · split at h
    · cases h; exact ⟨rfl, rfl, rfl, rfl, rfl⟩
    · cases h; exact ⟨rfl, rfl, rfl, rfl, rfl⟩

theorem cancel_ok_fixed (s s' : ManagerState) (h : cancel s = .ok s') :
    cancel s' = .ok s' := by
  unfold cancel at h ⊢
  split at h
  · cases h
  · next hstart =>
    split at h
    · next hrun =>
      cases h
      rw [if_neg hstart, if_pos hrun]
    · next hrun =>
      cases h
      have hstart' : ¬ !(ManagerState.is_started { s with cancelled := true }) := hstart
      have hrun' : ¬ !(ManagerState.is_running { s with cancelled := true }) := hrun
      rw [if_neg hstart', if_neg (by simpa using hrun')]

theorem cancelN_fixed (s : ManagerState) (h : cancel s = .ok s) :
    ∀ n, cancelN n s = .ok s := by
  intro n
  induction n with
  | zero => rfl
  | succ n ih => simp [cancelN, h, Except.bind, ih]

/-- Claim C5: `cancel()` raises `LifecycleError` exactly when the manager was
never started; when started but not running it returns with no state change;
otherwise it sets the `cancelled` event; and `N` successive calls have the
same effect as one.  (`cancel` is a plain synchronous function, so it never
blocks.) -/
theorem c5_cancel_semantics (s : ManagerState) :
    (s.is_started = false →
      cancel s = .error (.lifecycleError "Cannot cancel as service which was never started.")) ∧
    (∀ e, cancel s = .error e → s.is_started = false) ∧
    (s.is_started = true → s.is_running = false → cancel s = .ok s) ∧
    (s.is_started = true → s.is_running = true →
      cancel s = .ok { s with cancelled := true }) ∧
    (∀ n, cancelN (n + 1) s = cancelN 1 s) := by
  refine ⟨?_, ?_, ?_, ?_, ?_⟩
  · intro h; simp [cancel, h]
  · intro e h
    unfold cancel at h
    split at h
    · next hs => simpa using hs
    · split at h <;> cases h
  · intro h1 h2; simp [cancel, h1, h2]
  · intro h1 h2; simp [cancel, h1, h2]
  · intro n
    rcases hc : cancel s with e | s'
    · simp [cancelN, hc, Except.bind]
    · have hfix := cancel_ok_fixed s s' hc
      simp [cancelN, hc, Except.bind, cancelN_fixed s' hfix]

/-- Closed instance of claim C5 at a concrete started, running manager. -/
theorem c5_cancel_semantics_witness :
    ({ initialState with started := true } : ManagerState).is_started = true ∧
    ({ initialState with started := true } : ManagerState).is_running = true ∧
    cancel { initialState with started := true } =
      .ok { initialState with started := true, cancelled := true } ∧
    cancelN 5 { initialState with started := true } =
      cancelN 1 { initialState with started := true } := by
  refine ⟨by decide, by decide, ?_, ?_⟩
  · exact (c5_cancel_semantics _).2.2.2.1 (by decide) (by decide)
  · exact (c5_cancel_semantics _).2.2.2.2 4

/-- Claim C8: `stats()` always reports `total_count = max(0, |dag| − 1)`
(also read over the integers, where the truncation is visible) and
`finished_count = min(total_count, number of dag nodes whose done event is
set)`, so `finished_count ≤ total_count` holds at every point. -/
theorem c8_stats_counts (s : ManagerState) :
    (stats s).tasks.total_count = max 0 (s.dag.length - 1) ∧
    (((stats s).tasks.total_count : Int) = max 0 ((s.dag.length : Int) - 1)) ∧
    (stats s).tasks.finished_count =
      min ((stats s).tasks.total_count)
        ((s.dag.filter (fun e => e.task.done)).length) ∧
    (stats s).tasks.finished_count ≤ (stats s).tasks.total_count := by
  refine ⟨rfl, ?_, rfl, min_le_left _ _⟩
  simp only [stats, Nat.zero_max]
  rcases s.dag with _ | ⟨e, l⟩
  · simp
  · simp only [List.length_cons]
    push_cast
    omega

theorem run_guard_pass (s : ManagerState) (be : List Err) (bd : Dag) (bc : Bool)
    (hlock : s.runLockLocked = false) (hstart : s.started = false) :
    (run s be bd bc).1 =
      { started := true, cancelled := s.cancelled || bc, stoppingEv := true,
        finishedEv := true, runLockLocked := false, errors := s.errors ++ be,
        dag := bd } ∧
    (run s be bd bc).2 =
      (if (s.errors ++ be).isEmpty then none
       else some (.multiError (s.errors ++ be))) := by
  unfold run
  rw [if_neg (by simp [hlock]), if_neg (by simp [ManagerState.is_started, hstart])]
  simp only [ManagerState.did_error]
  constructor
  · split <;> rfl
  · by_cases h : (s.errors ++ be).isEmpty = true
    · rw [if_neg (by simp [h]), if_pos h]
    · rw [if_pos (by simp [h]), if_neg h]

/-- Claim C2: an invocation of `run` that passes the entry guard raises at
most once, after both nurseries have closed and `stopping` and `finished`
are set; it raises exactly when the error buffer is non-empty, and what it
raises is `trio.MultiError` over exactly the buffered failures in append
order. -/
theorem c2_run_error_aggregation (s : ManagerState) (bodyErrors : List Err)
    (bodyDag : Dag) (bc : Bool)
    (hlock : s.runLockLocked = false) (hstart : s.is_started = false) :
    ((run s bodyErrors bodyDag bc).1.stoppingEv = true) ∧
    ((run s bodyErrors bodyDag bc).1.finishedEv = true) ∧
    ((run s bodyErrors bodyDag bc).1.errors = s.errors ++ bodyErrors) ∧
    ((run s bodyErrors bodyDag bc).2 = none ↔
      (run s bodyErrors bodyDag bc).1.errors = []) ∧
    (∀ e, (run s bodyErrors bodyDag bc).2 = some e →
      e = .multiError ((run s bodyErrors bodyDag bc).1.errors)) := by
  obtain ⟨h1, h2⟩ := run_guard_pass s bodyErrors bodyDag bc hlock hstart
  rw [h1, h2]
  refine ⟨rfl, rfl, rfl, ?_, ?_⟩
  · by_cases h : (s.errors ++ bodyErrors).isEmpty = true
    · simp only [if_pos h]
      simp only [List.isEmpty_eq_true] at h
      simp [h]
    · simp only [if_neg h]
      simp only [List.isEmpty_eq_true] at h
      simp [h]
  · intro e he
    by_cases h : (s.errors ++ bodyErrors).isEmpty = true
    · rw [if_pos h] at he; cases he
    · rw [if_neg h] at he
      cases he; rfl

/-- Closed instance of claim C2: a guard-passing run over one captured
failure raises the aggregate over exactly that buffer. -/
theorem c2_run_error_aggregation_witness :
    ((run initialState [.userError "boom"] [] true).2 =
        some (.multiError [.userError "boom"])) ∧
    ((run initialState [] [] false).2 = none) := by
  constructor
  · have h := (c2_run_error_aggregation initialState [.userError "boom"] [] true rfl rfl)
    rcases he : (run initialState [.userError "boom"] [] true).2 with _ | e
    · have := h.2.2.2.1.mp he
      rw [h.2.2.1] at this
      cases this
    · rw [h.2.2.2.2 e he, h.2.2.1]
      rfl
  · have h := (c2_run_error_aggregation initialState [] [] false rfl rfl)
    exact h.2.2.2.1.mpr (by rw [h.2.2.1]; rfl)

/-- Claim C7: calling `run` a second time on the same manager raises
`LifecycleError`: a completed first run leaves `started` set, which the
second call rejects, and a first run still in progress holds the run lock,
which any further call rejects. -/
theorem c7_run_rejects_double (s : ManagerState) (be be' : List Err)
    (bd bd' : Dag) (bc bc' : Bool)
    (hlock : s.runLockLocked = false) (hstart : s.is_started = false) :
    ((run (run s be bd bc).1 be' bd' bc').2 =
      some (.lifecycleError "Cannot run a service which is already started.")) ∧
    (∀ t : ManagerState, t.runLockLocked = true →
      (run t be' bd' bc').2 = some (.lifecycleError
        "Cannot run a service with the run lock already engaged.  Already started?")) := by
  constructor
  · obtain ⟨h1, _⟩ := run_guard_pass s be bd bc hlock hstart
    rw [h1]
    unfold run
    rw [if_neg (by simp), if_pos (by simp [ManagerState.is_started])]
  · intro t ht
    unfold run
    rw [if_pos ht]

/-- Closed instance of claim C7 on a fresh manager. -/
theorem c7_run_rejects_double_witness :
    (run (run initialState [] [] false).1 [] [] false).2 =
      some (.lifecycleError "Cannot run a service which is already started.") :=
  (c7_run_rejects_double initialState [] [] [] [] false false rfl rfl).1

/-- Claim C10: `run_child_service` called while the manager is running but
already cancelled still constructs and returns a fresh child manager, but
the underlying `run_task` call is the post-cancellation no-op: the parent
state is unchanged, nothing is scheduled, and the returned child manager is
the just-initialised state, whose `started` event is unset (and stays unset,
since its `run` was never scheduled). -/
theorem c10_run_child_service_cancelled (s : ManagerState) (cur : Nat)
    (daemon : Bool) (nm : String) (fid : Nat)
    (hrun : s.is_running = true) (hcanc : s.is_cancelled = true) :
    run_child_service s cur daemon nm fid = .ok (s, none, initialState) ∧
    initialState.is_started = false ∧
    initialState.dag = [] := by
  refine ⟨?_, rfl, rfl⟩
  unfold run_child_service run_task
  rw [if_neg (by simp [hrun]), if_pos (by simp [hrun, hcanc])]
  rfl

/-- Closed instance of claim C10 at a running, cancelled manager. -/
theorem c10_run_child_service_cancelled_witness :
    run_child_service { initialState with started := true, cancelled := true }
        42 false "child" 7 =
      .ok ({ initialState with started := true, cancelled := true }, none, initialState) :=
  (c10_run_child_service_cancelled _ 42 false "child" 7 (by decide) (by decide)).1

/-! ### DAG lookup lemmas -/

theorem findEntry_map (g : DagEntry → DagEntry) (hg : ∀ e, (g e).task.id = e.task.id)
    (dag : Dag) (tid : Nat) :
    findEntry (dag.map g) tid = (findEntry dag tid).map g := by
  induction dag with
  | nil => rfl
  | cons a l ih =>
    by_cases h : a.task.id = tid
    · rw [List.map_cons, findEntry, List.find?_cons_of_pos _ (by simp [hg, h]),
        findEntry, List.find?_cons_of_pos _ (by simp [h])]
      rfl
    · rw [List.map_cons, findEntry, List.find?_cons_of_neg _ (by simp [hg, h]),
        findEntry, List.find?_cons_of_neg _ (by simp [h])]
      exact ih

theorem findEntry_append (l1 l2 : Dag) (tid : Nat) :
    findEntry (l1 ++ l2) tid =
      (match findEntry l1 tid with
       | some e => some e
       | none => findEntry l2 tid) := by
  induction l1 with
  | nil => rfl
  | cons a l ih =>
    by_cases h : a.task.id = tid
    · rw [List.cons_append, findEntry, List.find?_cons_of_pos _ (by simp [h]),
        findEntry, List.find?_cons_of_pos _ (by simp [h])]
    · rw [List.cons_append, findEntry, List.find?_cons_of_neg _ (by simp [h]),
        findEntry, List.find?_cons_of_neg _ (by simp [h])]
      exact ih

theorem findEntry_mem_of_key (dag : Dag) (tid : Nat) (h : tid ∈ keyIds dag) :
    ∃ e, findEntry dag tid = some e ∧ e.task.id = tid ∧ e ∈ dag := by
  induction dag with
  | nil => cases h
  | cons a l ih =>
    by_cases ha : a.task.id = tid
    · exact ⟨a, by rw [findEntry, List.find?_cons_of_pos _ (by simp [ha])], ha,
        List.mem_cons_self a l⟩
    · have hl : tid ∈ keyIds l := by
        rcases List.mem_cons.mp h with h0 | h0
        · exact absurd h0.symm ha
        · exact h0
      obtain ⟨e, he1, he2, he3⟩ := ih hl
      refine ⟨e, ?_, he2, List.mem_cons_of_mem a he3⟩
      rw [findEntry, List.find?_cons_of_neg _ (by simp [ha])]
      exact he1

theorem findEntry_none_of_not_key (dag : Dag) (tid : Nat) (h : tid ∉ keyIds dag) :
    findEntry dag tid = none := by
  induction dag with
  | nil => rfl
  | cons a l ih =>
    have ha : a.task.id ≠ tid := fun hc => h (by simp [keyIds, hc])
    rw [findEntry, List.find?_cons_of_neg _ (by simp [ha])]
    exact ih (fun hc => h (List.mem_cons_of_mem _ hc))

theorem keyIds_append (l1 l2 : Dag) : keyIds (l1 ++ l2) = keyIds l1 ++ keyIds l2 :=
  List.map_append _ _ _

theorem keyIds_appendChild (dag : Dag) (pid cid : Nat) :
    keyIds (appendChild dag pid cid) = keyIds dag := by
  unfold keyIds appendChild
  rw [List.map_map]
  apply List.map_congr_left
  intro e _
  by_cases h : e.task.id = pid <;> simp [h]

theorem findEntry_appendChild (dag : Dag) (pid cid tid : Nat) :
    findEntry (appendChild dag pid cid) tid =
      (findEntry dag tid).map (fun e =>
        if e.task.id = pid then { e with children := e.children ++ [cid] } else e) := by
  unfold appendChild
  apply findEntry_map
  intro e
  by_cases h : e.task.id = pid <;> simp [h]

theorem findEntry_setDone (dag : Dag) (tid t : Nat) :
    findEntry (setDone dag tid) t =
      (findEntry dag t).map (fun e =>
        if e.task.id = tid then { e with task := { e.task with done := true } } else e) := by
  unfold setDone
  apply findEntry_map
  intro e
  by_cases h : e.task.id = tid <;> simp [h]

theorem findEntry_setTrioTask (dag : Dag) (tid trioT t : Nat) :
    findEntry (setTrioTask dag tid trioT) t =
      (findEntry dag t).map (fun e =>
        if e.task.id = tid then { e with task := { e.task with trioTask := some trioT } } else e) := by
  unfold setTrioTask
  apply findEntry_map
  intro e
  by_cases h : e.task.id = tid <;> simp [h]

theorem preDone_setDone (dag : Dag) (tid : Nat) (h : tid ∈ keyIds dag) :
    preDone (setDone dag tid) tid = true := by
  obtain ⟨e, he1, he2, _⟩ := findEntry_mem_of_key dag tid h
  unfold preDone
  rw [findEntry_setDone, he1]
  simp [he2]

theorem _get_parent_task_mem (dag : Dag) (tt : Nat) (t : TaskNode)
    (h : _get_parent_task dag tt = some t) :
    t.trioTask = some tt ∧ ∃ e ∈ dag, e.task = t := by
  induction dag with
  | nil => cases h
  | cons a l ih =>
    unfold _get_parent_task at h
    by_cases h1 : a.task.trioTask.isSome
    · rw [if_neg (by simp [h1])] at h
      by_cases h2 : a.task.trioTask = some tt
      · rw [if_pos h2] at h
        cases h
        exact ⟨h2, a, List.mem_cons_self a l, rfl⟩
      · rw [if_neg h2] at h
        obtain ⟨ht, e, he, hte⟩ := ih h
        exact ⟨ht, e, List.mem_cons_of_mem a he, hte⟩
    · rw [if_pos (by simp [h1])] at h
      obtain ⟨ht, e, he, hte⟩ := ih h
      exact ⟨ht, e, List.mem_cons_of_mem a he, hte⟩

/-- Claim C4: `run_task` raises `LifecycleError` when the manager is not
running; while running but already cancelled it is a no-op that records
nothing and schedules nothing; otherwise it creates a task node whose parent
is inferred from the calling runtime task, appends it to the inferred
parent's child list (or adds it as a new parentless root when inference
finds none), registers an empty child list for the new node, and hands the
node to `start_soon` without blocking. -/
theorem c4_run_task_semantics (s : ManagerState) (cur : Nat) (daemon : Bool)
    (nm : String) (fid : Nat) (hfresh : fid ∉ keyIds s.dag) :
    (s.is_running = false →
      run_task s cur daemon nm fid =
        .error (.lifecycleError "Tasks may not be scheduled if the service is not running")) ∧
    (s.is_running = true → s.is_cancelled = true →
      run_task s cur daemon nm fid = .ok (s, none)) ∧
    (s.is_running = true → s.is_cancelled = false →
      ∃ s' : ManagerState, run_task s cur daemon nm fid = .ok (s', some fid) ∧
        keyIds s'.dag = keyIds s.dag ++ [fid] ∧
        findEntry s'.dag fid = some
          { task := { id := fid, name := nm, daemon := daemon,
                      parent := (_get_parent_task s.dag cur).map (fun p => p.id),
                      done := false, trioTask := none },
            children := [] } ∧
        (∀ p : TaskNode, _get_parent_task s.dag cur = some p →
          childrenOf s'.dag p.id = childrenOf s.dag p.id ++ [fid]) ∧
        (_get_parent_task s.dag cur = none →
          s'.dag = s.dag ++
            [{ task := { id := fid, name := nm, daemon := daemon, parent := none,
                         done := false, trioTask := none }, children := [] }]) ∧
        s'.started = s.started ∧ s'.cancelled = s.cancelled ∧
        s'.errors = s.errors) := by
  refine ⟨?_, ?_, ?_⟩
  · intro h
    unfold run_task
    rw [if_pos (by simp [h])]
  · intro h1 h2
    unfold run_task
    rw [if_neg (by simp [h1]), if_pos (by simp [h1, h2])]
  · intro h1 h2
    unfold run_task
    rw [if_neg (by simp [h1]), if_neg (by simp [h2])]
    refine ⟨_, rfl, ?_, ?_, ?_, ?_, rfl, rfl, rfl⟩
    · rcases hp : _get_parent_task s.dag cur with _ | p
      · simp only [hp]
        rw [keyIds_append]
        rfl
      · simp only [hp]
        rw [keyIds_append, keyIds_appendChild]
        rfl
    · rcases hp : _get_parent_task s.dag cur with _ | p
      · simp only [hp]
        rw [findEntry_append, findEntry_none_of_not_key s.dag fid hfresh]
        rw [findEntry, List.find?_cons_of_pos _ (by simp)]
      · simp only [hp]
        rw [findEntry_append, findEntry_none_of_not_key _ fid
          (by rw [keyIds_appendChild]; exact hfresh)]
        rw [findEntry, List.find?_cons_of_pos _ (by simp)]
    · intro p hp
      simp only [hp]
      obtain ⟨_, ⟨e0, he0mem, he0task⟩⟩ := _get_parent_task_mem s.dag cur p hp
      have hkey : p.id ∈ keyIds s.dag := by
        refine List.mem_map.mpr ⟨e0, he0mem, ?_⟩
        rw [he0task]
      obtain ⟨e1, he1find, he1id, _⟩ := findEntry_mem_of_key s.dag p.id hkey
      unfold childrenOf
      rw [findEntry_append, findEntry_appendChild, he1find]
      simp [he1id]
    · intro hp
      simp only [hp]
      rfl

/-- The concrete running manager state used by the claim-C4 witness: a
started manager whose DAG holds just the root run task. -/
def c4WitnessState : ManagerState :=
  { initialState with
      started := true
      dag := [{ task := runRootTask 42 0, children := [] }] }

/-- Closed instance of claim C4: spawning from the root task of a running
manager appends a child under the root and registers the new node. -/
theorem c4_run_task_semantics_witness :
    ∃ s' : ManagerState,
      run_task c4WitnessState 42 true "worker" 1 = .ok (s', some 1) ∧
      keyIds s'.dag = [0, 1] := by
  have h := (c4_run_task_semantics c4WitnessState 42 true "worker" 1
    (by decide)).2.2 (by decide) (by decide)
  obtain ⟨s', h1, h2, _⟩ := h
  refine ⟨s', h1, ?_⟩
  rw [h2]
  rfl

theorem cancel_started_ok (s : ManagerState) (h : s.is_started = true) :
    ∃ c, cancel s = .ok c ∧ c.errors = s.errors ∧ c.dag = s.dag ∧
      (s.is_running = true → c.cancelled = true) := by
  unfold cancel
  rw [if_neg (by simp [h])]
  by_cases hr : s.is_running = true
  · rw [if_neg (by simp [hr])]
    exact ⟨_, rfl, rfl, rfl, fun _ => rfl⟩
  · have hr' : (!s.is_running) = true := by
      simp only [Bool.not_eq_true] at hr
      simp [hr]
    rw [if_pos hr']
    exact ⟨s, rfl, rfl, rfl, fun hc => absurd hc hr⟩

/-- Claim C3: for every managed task, an exception from the wrapped function
is appended to the error buffer and `cancel()` is triggered; a daemon task
returning cleanly triggers `cancel()` and raises `DaemonTaskExit` into the
task scope; and on every exit path — success, error, or cancellation — the
task's `done` event is set. -/
theorem c3_wrapper_semantics (s bs : ManagerState) (br : BodyResult)
    (taskId cur : Nat) (daemon : Bool) (nm : String) (body : Body)
    (hguard : ((findEntry s.dag taskId).map (fun e => e.task.trioTask)).getD none = none)
    (hbody : body { s with dag := setTrioTask s.dag taskId cur } = (bs, br))
    (hstart : bs.is_started = true)
    (hkey : taskId ∈ keyIds bs.dag) :
    (∀ e, br = .exc e →
      ∃ c, cancel { bs with errors := bs.errors ++ [e] } = .ok c ∧
        _run_and_manage_task s taskId cur daemon nm body =
          ({ c with dag := setDone c.dag taskId }, none) ∧
        c.errors = bs.errors ++ [e] ∧
        (bs.is_running = true → c.cancelled = true)) ∧
    (br = .ok → daemon = true →
      ∃ c, cancel bs = .ok c ∧
        _run_and_manage_task s taskId cur daemon nm body =
          ({ c with dag := setDone c.dag taskId },
           some (.fromTask (.daemonTaskExit nm))) ∧
        (bs.is_running = true → c.cancelled = true)) ∧
    (br = .ok → daemon = false →
      _run_and_manage_task s taskId cur daemon nm body =
        ({ bs with dag := setDone bs.dag taskId }, none)) ∧
    (br = .cancelled →
      _run_and_manage_task s taskId cur daemon nm body =
        ({ bs with dag := setDone bs.dag taskId }, some .trioCancelled)) ∧
    preDone (_run_and_manage_task s taskId cur daemon nm body).1.dag taskId = true := by
  have hguard' :
      ¬((((findEntry s.dag taskId).map (fun e => e.task.trioTask)).getD none).isSome = true) := by
    rw [hguard]
    simp
  refine ⟨?_, ?_, ?_, ?_, ?_⟩
  · intro e he
    subst he
    obtain ⟨c, hc, hce, hcd, hcc⟩ :=
      cancel_started_ok { bs with errors := bs.errors ++ [e] } hstart
    refine ⟨c, hc, ?_, by rw [hce], hcc⟩
    unfold _run_and_manage_task
    rw [if_neg hguard', hbody]
    simp only [hc]
  · intro hok hd
    subst hok
    subst hd
    obtain ⟨c, hc, hce, hcd, hcc⟩ := cancel_started_ok bs hstart
    refine ⟨c, hc, ?_, hcc⟩
    unfold _run_and_manage_task
    rw [if_neg hguard', hbody]
    simp only [hc, if_true]
  · intro hok hd
    subst hok
    subst hd
    unfold _run_and_manage_task
    rw [if_neg hguard', hbody]
    simp only [Bool.false_eq_true, if_false]
  · intro hcn
    subst hcn
    unfold _run_and_manage_task
    rw [if_neg hguard', hbody]
  · unfold _run_and_manage_task
    rw [if_neg hguard', hbody]
    rcases br with _ | e | _
    · by_cases hd : daemon = true
      · obtain ⟨c, hc, hce, hcd, hcc⟩ := cancel_started_ok bs hstart
        simp only [hd, if_true, hc]
        exact preDone_setDone _ _ (by rw [hcd]; exact hkey)
      · simp only [Bool.not_eq_true] at hd
        simp only [hd, Bool.false_eq_true, if_false]
        exact preDone_setDone _ _ hkey
    · obtain ⟨c, hc, hce, hcd, hcc⟩ :=
        cancel_started_ok { bs with errors := bs.errors ++ [e] } hstart
      simp only [hc]
      exact preDone_setDone _ _ (by rw [hcd]; exact hkey)
    · exact preDone_setDone _ _ hkey

/-- The concrete started manager used by the claim-C3 witness: its DAG holds
one freshly spawned task (id 7) whose runtime handle is not yet set. -/
def c3wBaseStart : ManagerState :=
  { initialState with
      started := true
      dag := [{ task := { id := 7, name := "t", daemon := false, parent := none,
                          done := false, trioTask := none }, children := [] }] }

/-- The claim-C3 witness state after the wrapper has recorded the runtime
handle of task 7. -/
def c3wBase : ManagerState :=
  { c3wBaseStart with dag := setTrioTask c3wBaseStart.dag 7 42 }

/-- Closed instance of claim C3: a wrapper whose body raises appends the
failure, sets `cancelled`, and sets the task's `done` event. -/
theorem c3_wrapper_semantics_witness :
    ∃ c, cancel { c3wBase with errors := [.userError "boom"] } = .ok c ∧
      _run_and_manage_task c3wBaseStart 7 42 false "t"
          (fun st => (st, .exc (.userError "boom"))) =
        ({ c with dag := setDone c.dag 7 }, none) ∧
      c.errors = [.userError "boom"] ∧
      c.cancelled = true := by
  have h := (c3_wrapper_semantics c3wBaseStart c3wBase (.exc (.userError "boom"))
    7 42 false "t" (fun st => (st, .exc (.userError "boom")))
    (by decide) rfl (by decide) (by decide)).1 (.userError "boom") rfl
  obtain ⟨c, hc, hr, hce, hcc⟩ := h
  exact ⟨c, hc, hr, hce, hcc (by decide)⟩

/-! ### Ordering machinery for the cancellation handler -/

theorem firstIdx_le_length (a : Nat) (l : List Nat) : firstIdx a l ≤ l.length := by
  induction l with
  | nil => exact Nat.le_refl 0
  | cons b l ih =>
    unfold firstIdx
    by_cases h : b = a
    · simp [h]
    · rw [if_neg h]
      simpa using ih

theorem firstIdx_lt_length_of_mem (a : Nat) (l : List Nat) (h : a ∈ l) :
    firstIdx a l < l.length := by
  induction l with
  | nil => cases h
  | cons b l ih =>
    unfold firstIdx
    by_cases hb : b = a
    · simp [hb]
    · rw [if_neg hb]
      have hl : a ∈ l := by
        rcases List.mem_cons.mp h with h0 | h0
        · exact absurd h0.symm hb
        · exact h0
      simpa using ih hl

theorem firstIdx_eq_length_of_not_mem (a : Nat) (l : List Nat) (h : a ∉ l) :
    firstIdx a l = l.length := by
  induction l with
  | nil => rfl
  | cons b l ih =>
    unfold firstIdx
    have hb : b ≠ a := fun hc => h (by rw [hc]; exact List.mem_cons_self a l)
    rw [if_neg hb]
    have : a ∉ l := fun hc => h (List.mem_cons_of_mem b hc)
    simpa using ih this

theorem firstIdx_append_of_mem (a : Nat) (l1 l2 : List Nat) (h : a ∈ l1) :
    firstIdx a (l1 ++ l2) = firstIdx a l1 := by
  induction l1 with
  | nil => cases h
  | cons b l ih =>
    rw [List.cons_append]
    unfold firstIdx
    by_cases hb : b = a
    · rw [if_pos hb, if_pos hb]
    · rw [if_neg hb, if_neg hb]
      have hl : a ∈ l := by
        rcases List.mem_cons.mp h with h0 | h0
        · exact absurd h0.symm hb
        · exact h0
      rw [ih hl]

theorem firstIdx_append_cons_self (a : Nat) (l1 l2 : List Nat) (h : a ∉ l1) :
    firstIdx a (l1 ++ a :: l2) = l1.length := by
  induction l1 with
  | nil => simp [firstIdx]
  | cons b l ih =>
    rw [List.cons_append]
    unfold firstIdx
    have hb : b ≠ a := fun hc => h (by rw [hc]; exact List.mem_cons_self a l)
    rw [if_neg hb]
    have : a ∉ l := fun hc => h (List.mem_cons_of_mem b hc)
    rw [ih this, List.length_cons]

theorem first_occ_split (a : Nat) (l : List Nat) (h : a ∈ l) :
    ∃ pre post, l = pre ++ a :: post ∧ a ∉ pre := by
  induction l with
  | nil => cases h
  | cons b l ih =>
    by_cases hb : b = a
    · exact ⟨[], l, by rw [hb, List.nil_append], by simp⟩
    · have hl : a ∈ l := by
        rcases List.mem_cons.mp h with h0 | h0
        · exact absurd h0.symm hb
        · exact h0
      obtain ⟨pre, post, h1, h2⟩ := ih hl
      refine ⟨b :: pre, post, by rw [List.cons_append, h1], ?_⟩
      intro hc
      rcases List.mem_cons.mp hc with h0 | h0
      · exact hb h0.symm
      · exact h2 h0

theorem flatMap_split {α β : Type} (f : α → List β) (b : β) :
    ∀ (l : List α) (pre post : List β), l.flatMap f = pre ++ b :: post →
      ∃ x px py pr, x ∈ l ∧ f x = px ++ b :: py ∧ pre = pr ++ px := by
  intro l
  induction l with
  | nil =>
    intro pre post h
    rw [List.flatMap_nil] at h
    have hlen := congrArg List.length h
    simp only [List.length_nil, List.length_append, List.length_cons] at hlen
    omega
  | cons a l ih =>
    intro pre post h
    rw [List.flatMap_cons] at h
    rcases List.append_eq_append_iff.mp h with ⟨as, h1, h2⟩ | ⟨cs, h1, h2⟩
    · obtain ⟨x, px, py, pr, hx, hfx, hpre⟩ := ih as post h2
      exact ⟨x, px, py, f a ++ pr, List.mem_cons_of_mem a hx, hfx,
        by rw [h1, hpre, List.append_assoc]⟩
    · cases cs with
      | nil =>
        rw [List.append_nil] at h1
        rw [List.nil_append] at h2
        obtain ⟨x, px, py, pr, hx, hfx, hpre⟩ :=
          ih [] post (by rw [List.nil_append]; exact h2.symm)
        have hpx : px = [] := (List.append_eq_nil.mp hpre.symm).2
        exact ⟨x, px, py, pre, List.mem_cons_of_mem a hx, hfx,
          by rw [hpx, List.append_nil]⟩
      | cons c0 cs' =>
        have h2' := h2
        simp only [List.cons_append, List.cons.injEq] at h2'
        refine ⟨a, pre, cs', [], List.mem_cons_self a l, ?_,
          (List.nil_append pre).symm⟩
        rw [h1, h2'.1]

theorem append_singleton_split (xs : List Nat) (t b : Nat) (pre post : List Nat)
    (h : xs ++ [t] = pre ++ b :: post) :
    (pre = xs ∧ b = t ∧ post = []) ∨ ∃ cs, xs = pre ++ b :: cs := by
  rcases List.append_eq_append_iff.mp h with ⟨as, h1, h2⟩ | ⟨cs, h1, h2⟩
  · cases as with
    | nil =>
      rw [List.append_nil] at h1
      rw [List.nil_append] at h2
      have h2' := h2
      simp only [List.cons.injEq] at h2'
      exact Or.inl ⟨h1, h2'.1.symm, h2'.2.symm⟩
    | cons a0 as' =>
      exfalso
      have h2' := h2
      simp only [List.cons_append, List.cons.injEq] at h2'
      exact absurd h2'.2.symm (by simp)
  · cases cs with
    | nil =>
      rw [List.append_nil] at h1
      rw [List.nil_append] at h2
      have h2' := h2
      simp only [List.cons.injEq] at h2'
      exact Or.inl ⟨h1.symm, h2'.1, h2'.2⟩
    | cons c0 cs' =>
      have h2' := h2
      simp only [List.cons_append, List.cons.injEq] at h2'
      right
      refine ⟨cs', ?_⟩
      rw [h1, h2'.1]

/-- The default entry used for positional (`getD`) access to the DAG. -/
def dfltEntry : DagEntry := default

/-- Well-formedness of the recorded task DAG, as the manager maintains it:
the keys are pairwise distinct (fresh uuids), and every recorded child id is
itself a key that was inserted strictly after its parent's entry (`run_task`
looks the parent up among the existing keys before inserting the child's
entry at the end of the dict). -/
def DagWF (dag : Dag) : Prop :=
  (keyIds dag).Nodup ∧
  ∀ i ∈ List.range dag.length, ∀ c ∈ (dag.getD i dfltEntry).children,
    ∃ j ∈ List.range dag.length, i < j ∧ (dag.getD j dfltEntry).task.id = c

instance (dag : Dag) : Decidable (DagWF dag) := by
  unfold DagWF; infer_instance

theorem key_pos_inj (dag : Dag) (hnd : (keyIds dag).Nodup) (i j : Nat)
    (hi : i < dag.length) (hj : j < dag.length)
    (hij : (dag.getD i dfltEntry).task.id = (dag.getD j dfltEntry).task.id) :
    i = j := by
  have hi' : i < (keyIds dag).length := by simpa [keyIds] using hi
  have hj' : j < (keyIds dag).length := by simpa [keyIds] using hj
  have hkey : (keyIds dag)[i] = (keyIds dag)[j] := by
    simp only [keyIds, List.getElem_map]
    rw [List.getD_eq_getElem _ _ hi, List.getD_eq_getElem _ _ hj] at hij
    exact hij
  exact (hnd.getElem_inj_iff).mp hkey

theorem findEntry_of_pos (dag : Dag) (hnd : (keyIds dag).Nodup) (j : Nat)
    (hj : j < dag.length) :
    findEntry dag ((dag.getD j dfltEntry).task.id) = some (dag.getD j dfltEntry) := by
  have hmem : (dag.getD j dfltEntry) ∈ dag := by
    rw [List.getD_eq_getElem _ _ hj]
    exact List.getElem_mem hj
  have hkey : (dag.getD j dfltEntry).task.id ∈ keyIds dag :=
    List.mem_map.mpr ⟨_, hmem, rfl⟩
  obtain ⟨e, hfind, hid, hemem⟩ := findEntry_mem_of_key dag _ hkey
  have heq : e = dag.getD j dfltEntry :=
    List.inj_on_of_nodup_map hnd hemem hmem hid
  rw [hfind, heq]

theorem childrenOf_of_pos (dag : Dag) (hnd : (keyIds dag).Nodup) (j : Nat)
    (hj : j < dag.length) :
    childrenOf dag ((dag.getD j dfltEntry).task.id) = (dag.getD j dfltEntry).children := by
  unfold childrenOf
  rw [findEntry_of_pos dag hnd j hj]
  rfl

theorem self_mem_subtreeSeq (dag : Dag) (fuel : Nat) (t : Nat) (h : 1 ≤ fuel) :
    t ∈ subtreeSeq dag fuel t := by
  cases fuel with
  | zero => omega
  | succ n =>
    unfold subtreeSeq
    exact List.mem_append_right _ (List.mem_singleton.mpr rfl)

/-- In a well-formed DAG, every occurrence of a parent `p` in the depth-first
subtree emission is preceded by an occurrence of each of `p`'s recorded
children: the subtree of each child is emitted, in full, before `p` itself. -/
theorem subtree_occ (dag : Dag) (hnd : (keyIds dag).Nodup)
    (hcl : ∀ i ∈ List.range dag.length, ∀ c ∈ (dag.getD i dfltEntry).children,
      ∃ j ∈ List.range dag.length, i < j ∧ (dag.getD j dfltEntry).task.id = c)
    (p c : Nat) (ip : Nat) (hip : ip < dag.length)
    (hpid : (dag.getD ip dfltEntry).task.id = p)
    (hcc : c ∈ (dag.getD ip dfltEntry).children) :
    ∀ fuel j t, j < dag.length → (dag.getD j dfltEntry).task.id = t →
      dag.length - j ≤ fuel →
      ∀ pre post, subtreeSeq dag fuel t = pre ++ p :: post → c ∈ pre := by
  intro fuel
  induction fuel with
  | zero =>
    intro j t hj ht hle pre post hsplit
    omega
  | succ fuel ih =>
    intro j t hj ht hle pre post hsplit
    unfold subtreeSeq at hsplit
    rcases append_singleton_split _ _ _ _ _ hsplit with ⟨hpre, hpt, hpost⟩ | ⟨cs, hkf⟩
    · -- the matched occurrence is the node itself: t = p, pre is the flat
      -- emission of all child subtrees
      have hj_ip : j = ip := key_pos_inj dag hnd j ip hj hip (by rw [ht, hpid, hpt])
      subst hj_ip
      -- c is a key strictly later than j, so the dag extends at least two
      -- entries past j and the remaining fuel is at least 1
      obtain ⟨jc, hjcr, hjclt, hjcid⟩ := hcl j (List.mem_range.mpr hj) c hcc
      have hjc : jc < dag.length := List.mem_range.mp hjcr
      have hfuel : 1 ≤ fuel := by omega
      rw [hpre]
      apply List.mem_flatMap.mpr
      refine ⟨c, ?_, self_mem_subtreeSeq dag fuel c hfuel⟩
      apply List.mem_reverse.mpr
      have hch : childrenOf dag t = (dag.getD j dfltEntry).children := by
        rw [← ht]
        exact childrenOf_of_pos dag hnd j hj
      rw [hch]
      exact hcc
    · -- the matched occurrence lies inside some child's subtree
      obtain ⟨x, px, py, pr, hx, hfx, hpre⟩ := flatMap_split _ _ _ _ _ hkf
      have hxch : x ∈ childrenOf dag t := List.mem_reverse.mp hx
      have hch : childrenOf dag t = (dag.getD j dfltEntry).children := by
        rw [← ht]
        exact childrenOf_of_pos dag hnd j hj
      rw [hch] at hxch
      obtain ⟨jx, hjxr, hjxlt, hjxid⟩ := hcl j (List.mem_range.mpr hj) x hxch
      have hjx : jx < dag.length := List.mem_range.mp hjxr
      have hc' := ih jx x hjx hjxid (by omega) px py hfx
      rw [hpre]
      exact List.mem_append_right pr hc'

/-- In a well-formed DAG, every occurrence of a parent in `iter_dag` is
preceded by an occurrence of each of its recorded children. -/
theorem iter_dag_occ (dag : Dag) (hwf : DagWF dag) (p c : Nat) (ip : Nat)
    (hip : ip < dag.length) (hpid : (dag.getD ip dfltEntry).task.id = p)
    (hcc : c ∈ (dag.getD ip dfltEntry).children) :
    ∀ pre post, iter_dag dag = pre ++ p :: post → c ∈ pre := by
  intro pre post hsplit
  unfold iter_dag at hsplit
  obtain ⟨x, px, py, pr, hx, hfx, hpre⟩ := flatMap_split _ _ _ _ _ hsplit
  have hx' : x ∈ (dag.filter (fun e => e.task.parent = none)).map (fun e => e.task.id) :=
    List.mem_reverse.mp hx
  obtain ⟨e, hef, heid⟩ := List.mem_map.mp hx'
  have hedag : e ∈ dag := List.mem_of_mem_filter hef
  obtain ⟨jx, hjx, hjxe⟩ := List.mem_iff_getElem.mp hedag
  have hjxid : (dag.getD jx dfltEntry).task.id = x := by
    rw [List.getD_eq_getElem _ _ hjx, hjxe, heid]
  have hc' := subtree_occ dag hwf.1 hwf.2 p c ip hip hpid hcc
    dag.length jx x hjx hjxid (by omega) px py hfx
  rw [hpre]
  exact List.mem_append_right pr hc'

/-- When a well-formed DAG's parent node occurs in the cancellation order at
all, its child occurs strictly earlier. -/
theorem iter_dag_child_first (dag : Dag) (hwf : DagWF dag) (p c : Nat) (ip : Nat)
    (hip : ip < dag.length) (hpid : (dag.getD ip dfltEntry).task.id = p)
    (hcc : c ∈ (dag.getD ip dfltEntry).children)
    (hp : p ∈ iter_dag dag) :
    c ∈ iter_dag dag ∧ firstIdx c (iter_dag dag) < firstIdx p (iter_dag dag) := by
  obtain ⟨pre, post, hsplit, hnp⟩ := first_occ_split p (iter_dag dag) hp
  have hcpre : c ∈ pre := iter_dag_occ dag hwf p c ip hip hpid hcc pre post hsplit
  constructor
  · rw [hsplit]
    exact List.mem_append_left _ hcpre
  · rw [hsplit, firstIdx_append_cons_self p pre post hnp]
    calc firstIdx c (pre ++ p :: post) = firstIdx c pre :=
          firstIdx_append_of_mem c pre _ hcpre
      _ < pre.length := firstIdx_lt_length_of_mem c pre hcpre

theorem doneTime_child_le (dag : Dag) (hwf : DagWF dag) (p c : Nat) (ip : Nat)
    (hip : ip < dag.length) (hpid : (dag.getD ip dfltEntry).task.id = p)
    (hcc : c ∈ (dag.getD ip dfltEntry).children)
    (hpd : preDone dag p = false) :
    doneTime dag c ≤ doneTime dag p := by
  unfold doneTime
  by_cases hcd : preDone dag c = true
  · rw [if_pos hcd]
    exact Nat.zero_le _
  · rw [if_neg hcd, if_neg (by rw [hpd]; simp)]
    apply Nat.succ_le_succ
    by_cases hp : p ∈ iter_dag dag
    · exact Nat.le_of_lt (iter_dag_child_first dag hwf p c ip hip hpid hcc hp).2
    · rw [firstIdx_eq_length_of_not_mem p _ hp]
      exact firstIdx_le_length c _

/-- Claim C1 (amended): for every parent-child edge `(p, c)` recorded in the
(well-formed) task DAG before the cancellation handler starts iterating, the
handler — which walks `iter_dag` over a snapshot of the DAG and, for each
node, first requests cancellation through the node's cancel scope and then
awaits that node's `done` event before moving to the next node — visits `c`
strictly before `p` whenever it visits `p` at all; and, provided `p`'s done
event was not already set when iteration began, `c`'s done event is set no
later than `p`'s. -/
theorem c1_cancellation_order (s : ManagerState) (p c : Nat)
    (hwf : DagWF s.dag) (hedge : hasEdge s.dag p c) :
    (p ∈ (_handle_cancelled s).1 →
      c ∈ (_handle_cancelled s).1 ∧
      firstIdx c (_handle_cancelled s).1 < firstIdx p (_handle_cancelled s).1) ∧
    (preDone s.dag p = false → doneTime s.dag c ≤ doneTime s.dag p) := by
  obtain ⟨e, hemem, heid, hcch⟩ := hedge
  obtain ⟨ip, hip, hipe⟩ := List.mem_iff_getElem.mp hemem
  have hpid : (s.dag.getD ip dfltEntry).task.id = p := by
    rw [List.getD_eq_getElem _ _ hip, hipe, heid]
  have hcc : c ∈ (s.dag.getD ip dfltEntry).children := by
    rw [List.getD_eq_getElem _ _ hip, hipe]
    exact hcch
  constructor
  · intro hp
    exact iter_dag_child_first s.dag hwf p c ip hip hpid hcc hp
  · intro hpd
    exact doneTime_child_le s.dag hwf p c ip hip hpid hcc hpd

/-- The concrete manager state used by the claim-C1 witness: a cancelled
manager whose DAG holds a root task with one child, neither done when the
handler starts iterating. -/
def c1wState : ManagerState :=
  { initialState with
      started := true
      cancelled := true
      dag :=
        [ { task := { id := 0, name := "run", daemon := false, parent := none,
                      done := false, trioTask := some 42 }, children := [1] },
          { task := { id := 1, name := "w", daemon := true, parent := some 0,
                      done := false, trioTask := some 43 }, children := [] } ] }

/-- Closed instance of claim C1 at a two-node DAG: the handler visits the
child strictly before the root, and the child is done no later. -/
theorem c1_cancellation_order_witness :
    (1 ∈ (_handle_cancelled c1wState).1 ∧
      firstIdx 1 (_handle_cancelled c1wState).1 <
        firstIdx 0 (_handle_cancelled c1wState).1) ∧
    doneTime c1wState.dag 1 ≤ doneTime c1wState.dag 0 := by
  have h := c1_cancellation_order c1wState 0 1 (by decide) (by decide)
  exact ⟨h.1 (by decide), h.2 (by decide)⟩

/-- The execution reaching the claim-C1 counterexample: the service body
spawns one daemon child from the root run task and then returns cleanly, so
`_handle_run` sets the root's `done` event while the child's is still unset;
cancellation is then requested. -/
def c1cxState : ManagerState :=
  (_handle_run { initialState with started := true, runLockLocked := true } 42 0
    (fun st =>
      match run_task st 42 true "daemon" 1 with
      | .ok r => (r.1, .ok)
      | .error _ => (st, .ok))).1

/-- Claim C1 as stated is false on the code: in the reachable execution
`c1cxState` the edge root → daemon is recorded before the handler starts,
the DAG is well-formed, but the root's done event (set when the service body
returned cleanly, before cancellation) precedes the child's, so the child's
done is set strictly later than its parent's. -/
theorem c1_cancellation_order_counterexample :
    hasEdge c1cxState.dag 0 1 ∧ DagWF c1cxState.dag ∧
    preDone c1cxState.dag 0 = true ∧ preDone c1cxState.dag 1 = false ∧
    ¬(doneTime c1cxState.dag 1 ≤ doneTime c1cxState.dag 0) := by decide

theorem _get_parent_task_none_iff (dag : Dag) (tt : Nat) :
    _get_parent_task dag tt = none ↔ ∀ e ∈ dag, e.task.trioTask ≠ some tt := by
  induction dag with
  | nil => simp [_get_parent_task]
  | cons a l ih =>
    unfold _get_parent_task
    by_cases h1 : a.task.trioTask.isSome
    · rw [if_neg (by simp [h1])]
      by_cases h2 : a.task.trioTask = some tt
      · rw [if_pos h2]
        constructor
        · intro h; cases h
        · intro h
          exact absurd h2 (h a (List.mem_cons_self a l))
      · rw [if_neg h2, ih]
        constructor
        · intro h e he
          rcases List.mem_cons.mp he with h0 | h0
          · rw [h0]; exact h2
          · exact h e h0
        · intro h e he
          exact h e (List.mem_cons_of_mem a he)
    · rw [if_pos (by simp [h1]), ih]
      have ha : a.task.trioTask = none := Option.not_isSome_iff_eq_none.mp h1
      constructor
      · intro h e he
        rcases List.mem_cons.mp he with h0 | h0
        · rw [h0, ha]; simp
        · exact h e h0
      · intro h e he
        exact h e (List.mem_cons_of_mem a he)

/-- Claim C9 (amended): a task node with `parent = None` is a root, and the
service body's run task is such a root; parent inference scans the DAG keys,
skips every entry whose runtime handle is unset, returns a task whose
runtime handle equals the spawning runtime task, and returns `None` exactly
when no recorded handle matches; `run_task` records the inference result as
the created node's parent, so the node becomes an additional parentless root
precisely when inference returned `None` (there may therefore be more than
one parentless node). -/
theorem c9_parent_inference (dag : Dag) (tt : Nat) (s : ManagerState)
    (cur : Nat) (daemon : Bool) (nm : String) (fid : Nat) :
    (_get_parent_task dag tt = none ↔ ∀ e ∈ dag, e.task.trioTask ≠ some tt) ∧
    (∀ e : DagEntry, e.task.trioTask = none → ∀ rest : Dag,
      _get_parent_task (e :: rest) tt = _get_parent_task rest tt) ∧
    (∀ t, _get_parent_task dag tt = some t →
      t.trioTask = some tt ∧ ∃ e ∈ dag, e.task = t) ∧
    ((runRootTask cur fid).parent = none) ∧
    (s.is_running = true → s.is_cancelled = false → fid ∉ keyIds s.dag →
      ∃ s', run_task s cur daemon nm fid = .ok (s', some fid) ∧
        (findEntry s'.dag fid).map (fun e => e.task.parent) =
          some ((_get_parent_task s.dag cur).map (fun p => p.id))) := by
  refine ⟨_get_parent_task_none_iff dag tt, ?_, ?_, rfl, ?_⟩
  · intro e he rest
    unfold _get_parent_task
    rw [if_pos (by simp [he])]
    cases rest <;> rfl
  · intro t h
    exact _get_parent_task_mem dag tt t h
  · intro h1 h2 hfresh
    unfold run_task
    rw [if_neg (by simp [h1]), if_neg (by simp [h2])]
    refine ⟨_, rfl, ?_⟩
    rcases hp : _get_parent_task s.dag cur with _ | p
    · simp only [hp]
      rw [findEntry_append, findEntry_none_of_not_key s.dag fid hfresh]
      rw [findEntry, List.find?_cons_of_pos _ (by simp)]
      rfl
    · simp only [hp]
      rw [findEntry_append, findEntry_none_of_not_key _ fid
        (by rw [keyIds_appendChild]; exact hfresh)]
      rw [findEntry, List.find?_cons_of_pos _ (by simp)]
      rfl

/-- The concrete running manager used by the claim-C9 witness: its DAG holds
the root run task, whose runtime handle is 42. -/
def c9wState : ManagerState :=
  { initialState with
      started := true
      dag := [{ task := runRootTask 42 0, children := [] }] }

/-- Closed instance of claim C9: spawning from a runtime task unknown to the
DAG records the new node with `parent = None` (a fresh root). -/
theorem c9_parent_inference_witness :
    ∃ s', run_task c9wState 99 false "orphan" 1 = .ok (s', some 1) ∧
      (findEntry s'.dag 1).map (fun e => e.task.parent) = some none := by
  obtain ⟨s', h1, h2⟩ :=
    (c9_parent_inference c9wState.dag 99 c9wState 99 false "orphan" 1).2.2.2.2
      (by decide) (by decide) (by decide)
  refine ⟨s', h1, ?_⟩
  rw [h2]
  rfl

/-- The execution reaching the claim-C9 counterexample: while the service
body is running, `run_task` is invoked from a runtime task that matches no
recorded handle (an external caller), so parent inference returns `None` and
a second parentless root is recorded alongside the run task. -/
def c9cxState : ManagerState :=
  (_handle_run { initialState with started := true, runLockLocked := true } 42 0
    (fun st =>
      match run_task st 99 false "orphan" 1 with
      | .ok r => (r.1, .ok)
      | .error _ => (st, .ok))).1

/-- Claim C9 as stated (exactly one parentless root in every reachable DAG
state) is false on the code: the reachable state `c9cxState` records two
parentless roots. -/
theorem c9_single_root_counterexample :
    ((c9cxState.dag.filter (fun e => e.task.parent = none)).length = 2) ∧
    ¬((c9cxState.dag.filter (fun e => e.task.parent = none)).length = 1) := by
  decide

/-- Claim C6: an `external_api`-wrapped method fails with `ServiceCancelled`
("has not been run") when the instance has no manager, and with a
`ServiceCancelled` carrying the status dump — without the wrapped function
ever being invoked — when the manager is not running; otherwise the caller
consumes exactly the first payload the race delivers (the rest of the
delivery sequence is irrelevant) and returns its result when the error slot
is empty or raises the delivered error otherwise. -/
theorem c6_external_api_guard {α : Type} (fnName : String) (m : ManagerState)
    (p : Payload α) (rest rest' payloads : List (Payload α)) :
    (external_api fnName (none : Option ManagerState) payloads =
      { result := .raised (.serviceCancelled
          ("Cannot access external API " ++ fnName ++ ".  Service has not been run.")),
        invokedFn := false }) ∧
    (m.is_running = false →
      external_api fnName (some m) payloads =
        { result := .raised (.serviceCancelled (cannotAccessMsg fnName m)),
          invokedFn := false }) ∧
    (m.is_running = true →
      external_api fnName (some m) (p :: rest) =
        external_api fnName (some m) (p :: rest') ∧
      (p.2 = none →
        external_api fnName (some m) (p :: rest) =
          { result := .value p.1, invokedFn := true }) ∧
      (∀ e, p.2 = some e →
        external_api fnName (some m) (p :: rest) =
          { result := .raised e, invokedFn := true })) := by
  refine ⟨rfl, ?_, ?_⟩
  · intro h
    show (if (!m.is_running) = true then _ else _) = _
    rw [if_pos (by simp [h])]
  · intro h
    have hrw : ∀ l : List (Payload α),
        external_api fnName (some m) (p :: l) =
          (match p.2 with
           | none => { result := .value p.1, invokedFn := true }
           | some err => { result := .raised err, invokedFn := true }) := by
      intro l
      show (if (!m.is_running) = true then _ else _) = _
      rw [if_neg (by simp [h])]
    refine ⟨by rw [hrw rest, hrw rest'], ?_, ?_⟩
    · intro hp
      rw [hrw rest, hp]
    · intro e hp
      rw [hrw rest, hp]

/-- Closed instance of claim C6: on a running manager, the winning payload
`(some 3, none)` is returned as the call's value; on a stopped manager the
guard raises without invoking the wrapped function. -/
theorem c6_external_api_guard_witness :
    (external_api "api" (some { initialState with started := true })
        [((some 3 : Option Nat), none)] =
      { result := .value (some 3), invokedFn := true }) ∧
    (external_api "api" (some { initialState with started := true, stoppingEv := true })
        ([] : List (Payload Nat)) =
      { result := .raised (.serviceCancelled
          (cannotAccessMsg "api" { initialState with started := true, stoppingEv := true })),
        invokedFn := false }) := by
  constructor
  · exact ((c6_external_api_guard "api" { initialState with started := true }
      ((some 3 : Option Nat), none) [] [] []).2.2 (by decide)).2.1 rfl
  · exact (c6_external_api_guard "api"
      { initialState with started := true, stoppingEv := true }
      ((none : Option Nat), none) [] [] []).2.1 (by decide)

/-! ### The manager's DAG mutations preserve well-formedness

These lemmas justify the `DagWF` hypothesis of the cancellation-ordering
theorem: the empty DAG is well-formed, and every mutation the manager
performs — inserting the root run task, spawning via `run_task` with a fresh
uuid, and flipping the `done`/`trio_task` flags — preserves well-formedness,
so every reachable DAG satisfies `DagWF`. -/

theorem DagWF_nil : DagWF [] := by decide

theorem DagWF_map (g : DagEntry → DagEntry) (hgid : ∀ e, (g e).task.id = e.task.id)
    (hgch : ∀ e, (g e).children = e.children) (dag : Dag) (hwf : DagWF dag) :
    DagWF (dag.map g) := by
  obtain ⟨hnd, hcl⟩ := hwf
  constructor
  · have : keyIds (dag.map g) = keyIds dag := by
      unfold keyIds
      rw [List.map_map]
      apply List.map_congr_left
      intro e _
      exact hgid e
    rw [this]
    exact hnd
  · intro i hir c hc
    rw [List.length_map] at hir ⊢
    have hi : i < dag.length := List.mem_range.mp hir
    have hgetD : (dag.map g).getD i dfltEntry = g (dag.getD i dfltEntry) := by
      rw [List.getD_eq_getElem _ _ (by simpa using hi), List.getD_eq_getElem _ _ hi,
        List.getElem_map]
    rw [hgetD, hgch] at hc
    obtain ⟨j, hjr, hij, hjid⟩ := hcl i hir c hc
    have hj : j < dag.length := List.mem_range.mp hjr
    refine ⟨j, hjr, hij, ?_⟩
    have hgetD' : (dag.map g).getD j dfltEntry = g (dag.getD j dfltEntry) := by
      rw [List.getD_eq_getElem _ _ (by simpa using hj), List.getD_eq_getElem _ _ hj,
        List.getElem_map]
    rw [hgetD', hgid]
    exact hjid

theorem DagWF_setDone (dag : Dag) (tid : Nat) (hwf : DagWF dag) :
    DagWF (setDone dag tid) := by
  apply DagWF_map _ _ _ dag hwf
  · intro e
    by_cases h : e.task.id = tid <;> simp [h]
  · intro e
    by_cases h : e.task.id = tid <;> simp [h]

theorem DagWF_setTrioTask (dag : Dag) (tid trioT : Nat) (hwf : DagWF dag) :
    DagWF (setTrioTask dag tid trioT) := by
  apply DagWF_map _ _ _ dag hwf
  · intro e
    by_cases h : e.task.id = tid <;> simp [h]
  · intro e
    by_cases h : e.task.id = tid <;> simp [h]

theorem DagWF_foldl_setDone (order : List Nat) (dag : Dag) (hwf : DagWF dag) :
    DagWF (order.foldl setDone dag) := by
  induction order generalizing dag with
  | nil => exact hwf
  | cons t order ih =>
    rw [List.foldl_cons]
    exact ih (setDone dag t) (DagWF_setDone dag t hwf)

theorem getD_append_left (dag : Dag) (l2 : Dag) (i : Nat) (hi : i < dag.length) :
    (dag ++ l2).getD i dfltEntry = dag.getD i dfltEntry := by
  rw [List.getD_eq_getElem _ _ (by rw [List.length_append]; omega),
    List.getD_eq_getElem _ _ hi, List.getElem_append_left]

theorem keyIds_nodup_append_fresh (dag : Dag) (task : TaskNode)
    (hnd : (keyIds dag).Nodup) (hfresh : task.id ∉ keyIds dag) :
    (keyIds (dag ++ [{ task := task, children := [] }])).Nodup := by
  rw [keyIds_append]
  apply List.Nodup.append hnd (List.nodup_singleton _)
  intro x hx hx'
  have : x = task.id := by simpa [keyIds] using hx'
  rw [this] at hx
  exact hfresh hx

theorem getD_concat_self (dag : Dag) (e : DagEntry) (i : Nat) (hi : i = dag.length) :
    (dag ++ [e]).getD i dfltEntry = e := by
  rw [List.getD_eq_getElem _ _ (by rw [List.length_append, List.length_singleton]; omega)]
  exact List.getElem_concat_length dag e i hi _

theorem DagWF_append_new (dag : Dag) (task : TaskNode) (hwf : DagWF dag)
    (hfresh : task.id ∉ keyIds dag) :
    DagWF (dag ++ [{ task := task, children := [] }]) := by
  obtain ⟨hnd, hcl⟩ := hwf
  constructor
  · exact keyIds_nodup_append_fresh dag task hnd hfresh
  · intro i hir c hc
    rw [List.length_append, List.length_singleton] at hir
    have hi : i < dag.length + 1 := List.mem_range.mp hir
    by_cases hlt : i < dag.length
    · rw [getD_append_left dag _ i hlt] at hc
      obtain ⟨j, hjr, hij, hjid⟩ := hcl i (List.mem_range.mpr hlt) c hc
      have hj : j < dag.length := List.mem_range.mp hjr
      refine ⟨j, ?_, hij, ?_⟩
      · rw [List.length_append, List.length_singleton]
        exact List.mem_range.mpr (by omega)
      · rw [getD_append_left dag _ j hj]
        exact hjid
    · exfalso
      have hieq : i = dag.length := by omega
      rw [getD_concat_self dag _ i hieq] at hc
      cases hc

theorem DagWF_spawn (dag : Dag) (pid : Nat) (task : TaskNode)
    (hwf : DagWF dag) (hfresh : task.id ∉ keyIds dag) :
    DagWF (appendChild dag pid task.id ++ [{ task := task, children := [] }]) := by
  obtain ⟨hnd, hcl⟩ := hwf
  have hkeys : keyIds (appendChild dag pid task.id) = keyIds dag :=
    keyIds_appendChild dag pid task.id
  have hlen : (appendChild dag pid task.id).length = dag.length := by
    unfold appendChild
    exact List.length_map _ _
  have hgetD : ∀ i, i < dag.length →
      (appendChild dag pid task.id).getD i dfltEntry =
        (if (dag.getD i dfltEntry).task.id = pid then
          { dag.getD i dfltEntry with
              children := (dag.getD i dfltEntry).children ++ [task.id] }
         else dag.getD i dfltEntry) := by
    intro i hi
    unfold appendChild
    rw [List.getD_eq_getElem _ _ (by rw [List.length_map]; omega),
      List.getD_eq_getElem _ _ hi, List.getElem_map]
  constructor
  · rw [keyIds_append, hkeys]
    have := keyIds_nodup_append_fresh dag task hnd hfresh
    rw [keyIds_append] at this
    exact this
  · intro i hir c hc
    rw [List.length_append, List.length_singleton, hlen] at hir
    have hi : i < dag.length + 1 := List.mem_range.mp hir
    by_cases hlt : i < dag.length
    · rw [getD_append_left _ _ i (by omega), hgetD i hlt] at hc
      have hcases : c ∈ (dag.getD i dfltEntry).children ∨ c = task.id := by
        by_cases hp : (dag.getD i dfltEntry).task.id = pid
        · rw [if_pos hp] at hc
          rcases List.mem_append.mp hc with h0 | h0
          · exact Or.inl h0
          · exact Or.inr (List.mem_singleton.mp h0)
        · rw [if_neg hp] at hc
          exact Or.inl hc
      rcases hcases with h0 | h0
      · obtain ⟨j, hjr, hij, hjid⟩ := hcl i (List.mem_range.mpr hlt) c h0
        have hj : j < dag.length := List.mem_range.mp hjr
        refine ⟨j, ?_, hij, ?_⟩
        · rw [List.length_append, List.length_singleton, hlen]
          exact List.mem_range.mpr (by omega)
        · rw [getD_append_left _ _ j (by omega), hgetD j hj]
          by_cases hp : (dag.getD j dfltEntry).task.id = pid
          · rw [if_pos hp]
            exact hjid
          · rw [if_neg hp]
            exact hjid
      · refine ⟨dag.length, ?_, hlt, ?_⟩
        · rw [List.length_append, List.length_singleton, hlen]
          exact List.mem_range.mpr (by omega)
        · rw [getD_concat_self _ _ _ hlen.symm, h0]
    · exfalso
      have hieq : i = dag.length := by omega
      rw [getD_concat_self _ _ i (hieq.trans hlen.symm)] at hc
      cases hc

/-- `run_task` preserves DAG well-formedness whenever the fresh uuid is
indeed fresh. -/
theorem run_task_preserves_DagWF (s : ManagerState) (cur : Nat) (daemon : Bool)
    (nm : String) (fid : Nat) (hwf : DagWF s.dag) (hfresh : fid ∉ keyIds s.dag) :
    ∀ s' r, run_task s cur daemon nm fid = .ok (s', r) → DagWF s'.dag := by
  intro s' r h
  unfold run_task at h
  by_cases h1 : s.is_running = true
  · rw [if_neg (by simp [h1])] at h
    by_cases h2 : s.is_cancelled = true
    · rw [if_pos (by simp [h1, h2])] at h
      cases h
      exact hwf
    · rw [if_neg (by simp [h1, h2])] at h
      rcases hp : _get_parent_task s.dag cur with _ | p
      · rw [hp] at h
        cases h
        exact DagWF_append_new s.dag
          { id := fid, name := nm, daemon := daemon, parent := none,
            done := false, trioTask := none } hwf hfresh
      · rw [hp] at h
        cases h
        exact DagWF_spawn s.dag p.id
          { id := fid, name := nm, daemon := daemon, parent := some p.id,
            done := false, trioTask := none } hwf hfresh
  · rw [if_pos (by simp [h1])] at h
    cases h

/-- `_handle_run` and `_handle_cancelled` preserve DAG well-formedness
whenever the interleaved service body does (the body's own mutations go
through `run_task` and the `done`/`trio_task` setters, which preserve it). -/
theorem handlers_preserve_DagWF (s : ManagerState) (cur fid : Nat) (body : Body)
    (hwf : DagWF s.dag) (hfresh : fid ∉ keyIds s.dag)
    (hbody : ∀ t : ManagerState, DagWF t.dag → DagWF (body t).1.dag) :
    DagWF (_handle_run s cur fid body).1.dag ∧
    DagWF (_handle_cancelled s).2.dag := by
  constructor
  · have hwf0 : DagWF (s.dag ++ [{ task := runRootTask cur fid, children := [] }]) :=
      DagWF_append_new s.dag (runRootTask cur fid) hwf hfresh
    rcases hb : body { s with dag := s.dag ++ [{ task := runRootTask cur fid, children := [] }] }
      with ⟨bs, br⟩
    have hwf1 : DagWF bs.dag := by
      have hb' := hbody
        { s with dag := s.dag ++ [{ task := runRootTask cur fid, children := [] }] } hwf0
      rw [hb] at hb'
      exact hb'
    unfold _handle_run
    rw [hb]
    rcases br with _ | e | _
    · exact DagWF_setDone _ _ hwf1
    · rcases hc : cancel { bs with errors := bs.errors ++ [e] } with ex | c
      · simp only [hc]
        exact DagWF_setDone _ _ hwf1
      · simp only [hc]
        have hcd : c.dag = bs.dag := (cancel_preserves _ _ hc).2.2.2.2
        rw [hcd]
        exact DagWF_setDone _ _ hwf1
    · exact DagWF_setDone _ _ hwf1
  · unfold _handle_cancelled
    exact DagWF_foldl_setDone _ _ hwf

end AsyncService
